import Mathlib

/-!
Verification of the EXECAI platform knowledge-retrieval engine
(`src/knowledge/enhanced_knowledge_base.py`).

The development shallowly embeds the retrieval engine: the data model
(knowledge items, domains, the engine state), corpus vectorization
(TF-IDF with smoothed IDF and L2 normalization), query-to-corpus cosine
similarity, the descending `argsort` over scores, and the
threshold/filter/top-5 acceptance loop of `EnhancedKnowledgeBase.query`.

Floating-point numbers of the source are embedded as real numbers, so the
vectorizer's weights use `Real.log` and `Real.sqrt`; those definitions are
`noncomputable`, while all text processing (tokenization, vocabulary,
document frequency) and the engine construction check are computable.

The source delegates vectorization to `sklearn.feature_extraction.text
.TfidfVectorizer(stop_words='english')` and scoring to
`sklearn.metrics.pairwise.cosine_similarity`; that library code is not part
of this repository, so those parts are modelled from the specification
(tokenization, vocabulary building, smoothed IDF, L2 normalization, cosine
similarity with a zero-vector guard, and the empty-vocabulary failure).
-/

namespace ExecAI

/-- A knowledge domain record, as returned by `_load_knowledge_domains`
(`enhanced_knowledge_base.py` lines 39-75). -/
structure Domain where
  id : String
  name : String
  description : String
  icon : String
  capabilities : List String
deriving DecidableEq

/-- A knowledge-corpus item, as in `_load_knowledge_corpus`
(`enhanced_knowledge_base.py` lines 81-107).  A Python dict with fixed keys;
the static authored `relevance` weight is pass-through metadata and is kept
as a rational number. -/
structure KnowledgeItem where
  id : String
  title : String
  description : String
  content : String
  categories : List String
  keywords : List String
  source : String
  domain : String
  capabilities : List String
  relevance : ℚ
deriving DecidableEq, Inhabited

/-- The hardcoded knowledge domains of `_load_knowledge_domains`
(`enhanced_knowledge_base.py` lines 35-75). -/
def loadKnowledgeDomains : List Domain :=
  [ { id := "business", name := "Business Mentorship",
      description := "MBA-level business knowledge, frameworks, and mentorship",
      icon := "briefcase",
      capabilities := ["strategic_advice", "business_modeling",
                       "founder_mentorship", "case_analysis"] },
    { id := "finance", name := "Financial Analysis",
      description := "CFO-level financial reasoning and mathematical problem-solving",
      icon := "calculator",
      capabilities := ["financial_analysis", "math_problem_solving",
                       "statistical_reasoning"] },
    { id := "tech", name := "Technical Development",
      description := "CTO-level technical guidance and code expertise",
      icon := "code",
      capabilities := ["code_generation", "architecture_design", "technical_review"] },
    { id := "legal", name := "Legal Contracts",
      description := "Legal contract patterns and analysis",
      icon := "file-text",
      capabilities := ["contract_analysis", "legal_risk_assessment", "term_evaluation"] },
    { id := "speech", name := "Speech Recognition",
      description := "Voice interaction and transcription capabilities",
      icon := "mic",
      capabilities := ["speech_recognition", "audio_processing", "language_detection"] } ]

/-- The hardcoded knowledge corpus of `_load_knowledge_corpus`
(`enhanced_knowledge_base.py` lines 77-107; the source file itself elides
further items behind a comment, so exactly these two items exist). -/
def loadKnowledgeCorpus : List KnowledgeItem :=
  [ { id := "bm001", title := "Business Model Canvas",
      description := "Strategic management template for developing new or documenting existing business models",
      content := "The Business Model Canvas is a strategic management template used for developing new business models or documenting existing ones. It offers a visual chart with elements describing a firm\x27s value proposition, infrastructure, customers, and finances, helping businesses align their activities by illustrating potential trade-offs. The nine building blocks are: Customer Segments, Value Propositions, Channels, Customer Relationships, Revenue Streams, Key Resources, Key Activities, Key Partnerships, and Cost Structure.",
      categories := ["strategy", "business_model", "planning"],
      keywords := ["business model", "canvas", "value proposition",
                   "customer segments", "revenue streams"],
      source := "Harvard Business School",
      domain := "business",
      capabilities := ["strategic_advice", "business_modeling"],
      relevance := 0.95 },
    { id := "bm002", title := "Lean Canvas",
      description := "Adaptation of Business Model Canvas for lean startups",
      content := "Lean Canvas is a 1-page business plan template created by Ash Maurya that helps you deconstruct your idea into its key assumptions. It\x27s adapted from Alex Osterwalder\x27s Business Model Canvas and optimized for Lean Startups. It replaces elaborate business plans with a single page business model. The nine blocks are: Problem, Solution, Key Metrics, Unique Value Proposition, Unfair Advantage, Channels, Customer Segments, Cost Structure, and Revenue Streams. It focuses on problems, solutions, key metrics, and competitive advantages.",
      categories := ["lean_startup", "business_model", "planning"],
      keywords := ["lean", "startup", "canvas", "business model", "validation"],
      source := "Lean Startup corpus",
      domain := "business",
      capabilities := ["strategic_advice", "business_modeling", "founder_mentorship"],
      relevance := 0.85 }]

/-- Modelled from the spec: helper for tokenization, splitting a character
list into maximal alphanumeric spans ("tokens are alphanumeric spans",
spec section 4.1); the accumulator holds the current span reversed. -/
def splitTokens : List Char → List Char → List String
  | [], acc => if acc.isEmpty then [] else [String.mk acc.reverse]
  | c :: cs, acc =>
    if c.isAlphanum then splitTokens cs (c :: acc)
    else (if acc.isEmpty then [] else [String.mk acc.reverse]) ++ splitTokens cs []

/-- Modelled from the spec: tokenization of the vectorizer missing from
`src/` (the source uses `TfidfVectorizer(stop_words='english')`): lowercase
the text, split it into maximal alphanumeric spans, keep only tokens of
length at least 2 that are not in the fixed stop-word set (spec section
4.1, step 1).  The stop-word list is a parameter, fixed per engine. -/
def tokenize (stopWords : List String) (text : String) : List String :=
  (splitTokens (text.data.map Char.toLower) []).filter
    (fun t => decide (2 ≤ t.length) && !(stopWords.contains t))

/-- Lexicographic comparison of strings by character code point, used to
give vocabulary terms a deterministic (sorted) column order. -/
def lexLe : List Char → List Char → Bool
  | [], _ => true
  | _ :: _, [] => false
  | c :: cs, d :: ds =>
    if c.val < d.val then true else if d.val < c.val then false else lexLe cs ds

/-- Insert a string into a list so that a `lexLe`-sorted list stays sorted. -/
def insertSorted (a : String) : List String → List String
  | [] => [a]
  | b :: l => if lexLe a.data b.data then a :: b :: l else b :: insertSorted a l

/-- Insertion sort of strings by `lexLe`. -/
def sortStrings : List String → List String
  | [] => []
  | a :: l => insertSorted a (sortStrings l)

/-- Modelled from the spec: the fitted vocabulary, missing from `src/`: the
set of all distinct terms across the corpus, with a deterministic
(lexicographic) order of column assignment (spec section 4.1, step 2). -/
def vocabulary (stopWords : List String) (texts : List String) : List String :=
  sortStrings ((texts.flatMap (tokenize stopWords)).dedup)

/-- Raw term frequency of a term in a token list (spec section 4.1, step 4). -/
def tf (tokens : List String) (t : String) : ℕ :=
  tokens.count t

/-- Document frequency: the number of corpus texts whose token list
contains the term (spec section 4.1, step 3). -/
def df (stopWords : List String) (texts : List String) (t : String) : ℕ :=
  texts.countP (fun d => (tokenize stopWords d).contains t)

/-- Modelled from the spec: smoothed inverse document frequency, missing
from `src/`: `idf(t) = ln((1 + N) / (1 + df(t))) + 1` with `N` the corpus
size (spec section 4.1, step 3). -/
noncomputable def idf (stopWords : List String) (texts : List String) (t : String) : ℝ :=
  Real.log ((1 + (texts.length : ℝ)) / (1 + (df stopWords texts t : ℝ))) + 1

/-- Modelled from the spec: the raw (un-normalized) TF-IDF weight of a term
for a text: term frequency times inverse document frequency (spec section
4.1, step 4).  Terms outside the vocabulary are simply never looked up. -/
noncomputable def rawWeight (stopWords : List String) (texts : List String)
    (text : String) (t : String) : ℝ :=
  (tf (tokenize stopWords text) t : ℝ) * idf stopWords texts t

/-- Sum of squared entries of a vector indexed by the vocabulary. -/
noncomputable def sumSq (vocab : List String) (f : String → ℝ) : ℝ :=
  (vocab.map fun t => f t ^ 2).sum

/-- Euclidean (L2) norm of a vector indexed by the vocabulary. -/
noncomputable def l2norm (vocab : List String) (f : String → ℝ) : ℝ :=
  Real.sqrt (sumSq vocab f)

/-- Modelled from the spec: L2 normalization with the zero-vector guard of
the library (`sklearn` substitutes norm 1 for zero rows, so a zero vector
normalizes to itself; spec sections 4.1 step 4 and 4.2: "the zero vector
must compare as zero similarity, no division-by-zero"). -/
noncomputable def l2normalize (vocab : List String) (f : String → ℝ) : String → ℝ :=
  fun t => if l2norm vocab f = 0 then f t else f t / l2norm vocab f

/-- Dot product of two vectors indexed by the vocabulary. -/
noncomputable def dotProd (vocab : List String) (f g : String → ℝ) : ℝ :=
  (vocab.map fun t => f t * g t).sum

/-- Modelled from the spec: cosine similarity of two raw vectors, missing
from `src/` (the source calls `sklearn`'s `cosine_similarity`): both
vectors are L2-normalized (zero vectors staying zero) and then dotted
(spec section 4.2, step 2). -/
noncomputable def cosineSim (vocab : List String) (f g : String → ℝ) : ℝ :=
  dotProd vocab (l2normalize vocab f) (l2normalize vocab g)

/-- Modelled from the spec: `transform` of the fitted vectorizer, missing
from `src/`: the L2-normalized TF-IDF vector of an arbitrary text over the
fitted vocabulary (spec section 4.1, `transform`). -/
noncomputable def transform (stopWords : List String) (texts : List String)
    (text : String) : String → ℝ :=
  l2normalize (vocabulary stopWords texts) (rawWeight stopWords texts text)

/-- The engine state after `__init__` (`enhanced_knowledge_base.py` lines
23-33): the loaded domains, the loaded corpus, and the fitted vectorizer's
stop-word list.  The corpus matrix and vocabulary are pure functions of
these fields (the source stores `content_matrix` computed once at fit time;
since fitting is deterministic the stored matrix always equals the derived
one). -/
structure EnhancedKnowledgeBase where
  domains : List Domain
  corpus : List KnowledgeItem
  stopWords : List String
deriving DecidableEq

namespace EnhancedKnowledgeBase

/-- The corpus contents handed to the vectorizer:
`corpus_content = [item['content'] for item in self.corpus]`
(`enhanced_knowledge_base.py` line 112). -/
def corpusTexts (kb : EnhancedKnowledgeBase) : List String :=
  kb.corpus.map (·.content)

/-- The fitted vocabulary of the engine. -/
def vocab (kb : EnhancedKnowledgeBase) : List String :=
  vocabulary kb.stopWords kb.corpusTexts

end EnhancedKnowledgeBase

/-- Modelled from the spec: the failure raised when fitting the vectorizer
on a corpus whose tokenization yields an empty vocabulary (spec sections
4.1 and 7); the library raise inside `fit_transform` is not part of this
repository. -/
inductive DegenerateCorpusError where
  | emptyVocabulary
deriving DecidableEq

/-- Construction of the engine: `__init__` plus `_initialize_vectorizer`
(`enhanced_knowledge_base.py` lines 23-33 and 109-115).  Fitting the
vectorizer fails (Modelled from the spec: `DegenerateCorpusError`) exactly
when the corpus yields an empty vocabulary; otherwise the fitted engine
holds the given domains, corpus and stop-word list. -/
def EnhancedKnowledgeBase.init (stopWords : List String) (domains : List Domain)
    (corpus : List KnowledgeItem) :
    Except DegenerateCorpusError EnhancedKnowledgeBase :=
  if vocabulary stopWords (corpus.map (·.content)) = [] then
    Except.error DegenerateCorpusError.emptyVocabulary
  else
    Except.ok { domains := domains, corpus := corpus, stopWords := stopWords }

namespace EnhancedKnowledgeBase

/-- The query vector: `query_vector = self.vectorizer.transform([query])`
(`enhanced_knowledge_base.py` line 134). -/
noncomputable def queryVector (kb : EnhancedKnowledgeBase) (q : String) : String → ℝ :=
  transform kb.stopWords kb.corpusTexts q

/-- The similarity score of the query against corpus row `i`:
`similarity_scores = cosine_similarity(query_vector, self.content_matrix)`
(`enhanced_knowledge_base.py` line 137). -/
noncomputable def score (kb : EnhancedKnowledgeBase) (q : String) (i : ℕ) : ℝ :=
  cosineSim kb.vocab (rawWeight kb.stopWords kb.corpusTexts q)
    (rawWeight kb.stopWords kb.corpusTexts (kb.corpusTexts.getD i ""))

end EnhancedKnowledgeBase

/-- The comparator realized by a stable ascending argsort over the score
array: sort indices by score, with the original (smaller-index-first)
order among equal scores. -/
noncomputable def leScore (s : ℕ → ℝ) (i j : ℕ) : Bool :=
  @decide (s i < s j ∨ (s i = s j ∧ i ≤ j)) (Classical.propDecidable _)

namespace EnhancedKnowledgeBase

/-- The candidate order of `query`:
`sorted_indices = similarity_scores.argsort()[::-1]`
(`enhanced_knowledge_base.py` line 140) — a stable ascending argsort of the
score array (equal here to sorting the index range by score with
smaller-index-first tie-breaking), then reversed. -/
noncomputable def sortedIndices (kb : EnhancedKnowledgeBase) (q : String) : List ℕ :=
  ((List.range kb.corpus.length).mergeSort (leScore (kb.score q))).reverse

end EnhancedKnowledgeBase

/-- The domain and capability filters of the acceptance loop
(`enhanced_knowledge_base.py` lines 152-158): an item is kept when the
domain filter is empty (Python `None` or `[]` are both falsy) or contains
the item's domain, and the capability filter is empty or shares at least
one capability with the item. -/
def passesFilters (item : KnowledgeItem) (domains capabilities : List String) : Bool :=
  (domains.isEmpty || domains.contains item.domain) &&
  (capabilities.isEmpty || capabilities.any (fun c => item.capabilities.contains c))

/-- The acceptance predicate of the loop body
(`enhanced_knowledge_base.py` lines 144-158): an index is accepted when its
score is not below the 0.1 relevance threshold and the item passes both
filters. -/
noncomputable def EnhancedKnowledgeBase.passes (kb : EnhancedKnowledgeBase)
    (q : String) (domains capabilities : List String) (i : ℕ) : Bool :=
  (!(@decide (kb.score q i < 0.1) (Classical.propDecidable _))) &&
  passesFilters (kb.corpus.getD i default) domains capabilities

/-- The acceptance loop (`enhanced_knowledge_base.py` lines 143-168): walk
the list, keep the elements satisfying the predicate, and stop as soon as
the budget of accepted elements is exhausted. -/
def takeFiltered {α : Type} (p : α → Bool) : ℕ → List α → List α
  | _, [] => []
  | 0, _ :: _ => []
  | k + 1, a :: l => if p a then a :: takeFiltered p k l else takeFiltered p (k + 1) l

namespace EnhancedKnowledgeBase

/-- The corpus positions accepted by the loop of `query`
(`enhanced_knowledge_base.py` lines 143-168), in acceptance order: walk
`sorted_indices`, skip items below the 0.1 threshold or failing a filter,
and stop after 5 accepted items. -/
noncomputable def selectedIndices (kb : EnhancedKnowledgeBase) (q : String)
    (domains capabilities : List String) : List ℕ :=
  takeFiltered (kb.passes q domains capabilities) 5 (kb.sortedIndices q)

end EnhancedKnowledgeBase

/-- An accepted item as placed into `filtered_items`: a copy of the corpus
item (`item_copy = item.copy()`) together with the added
`similarity_score` key (`enhanced_knowledge_base.py` lines 160-164). -/
structure ScoredItem where
  item : KnowledgeItem
  similarity_score : ℝ

/-- One entry of the response's `sources` list
(`enhanced_knowledge_base.py` lines 173-179). -/
structure SourceInfo where
  module_id : String
  module_type : String
  version : String
deriving DecidableEq

/-- The response's `metadata` object (`enhanced_knowledge_base.py` lines
180-185); `timestamp` holds `datetime.now().isoformat()`, the wall-clock
time of the call, passed in explicitly. -/
structure QueryMetadata where
  query : String
  domains : List String
  capabilities : List String
  timestamp : String
deriving DecidableEq

/-- The response dict of `query` (`enhanced_knowledge_base.py` lines
170-186). -/
structure QueryResponse where
  items : List ScoredItem
  sources : List SourceInfo
  metadata : QueryMetadata

namespace EnhancedKnowledgeBase

/-- The annotated copy appended for an accepted index
(`enhanced_knowledge_base.py` lines 160-164). -/
noncomputable def annotate (kb : EnhancedKnowledgeBase) (q : String) (i : ℕ) : ScoredItem :=
  { item := kb.corpus.getD i default, similarity_score := kb.score q i }

/-- `EnhancedKnowledgeBase.query` (`enhanced_knowledge_base.py` lines
121-188).  The wall-clock reading `datetime.now().isoformat()` is passed
explicitly as `now`.  Python `None` for a filter is embedded as `[]`
(both are falsy in the source's checks). -/
noncomputable def query (kb : EnhancedKnowledgeBase) (q : String)
    (domains capabilities : List String) (now : String) : QueryResponse :=
  { items := (kb.selectedIndices q domains capabilities).map (kb.annotate q),
    sources := [{ module_id := "enhanced-knowledge-base",
                  module_type := "EnhancedKnowledgeBase",
                  version := "1.0.0" }],
    metadata := { query := q, domains := domains,
                  capabilities := capabilities, timestamp := now } }

/-- State-passing form of `query`: the call's result together with the
engine state after the call.  The loop body only ever writes to the fresh
copy `item_copy` (`enhanced_knowledge_base.py` line 161), never to the
stored corpus item or any other engine field, so the state after the call
is the unchanged input state. -/
noncomputable def queryState (kb : EnhancedKnowledgeBase) (q : String)
    (domains capabilities : List String) (now : String) :
    QueryResponse × EnhancedKnowledgeBase :=
  (kb.query q domains capabilities now, kb)

end EnhancedKnowledgeBase

/-! ### Structural lemmas about the acceptance loop and the candidate order -/

/-- The acceptance loop keeps the first `k` elements passing the predicate. -/
theorem takeFiltered_eq {α : Type} (p : α → Bool) (k : ℕ) (l : List α) :
    takeFiltered p k l = (l.filter p).take k := by
  induction l generalizing k with
  | nil => cases k <;> rfl
  | cons a l ih =>
    cases k with
    | zero =>
      by_cases h : p a = true
      · simp [takeFiltered, List.filter_cons, h]
      · simp only [Bool.not_eq_true] at h
        simp [takeFiltered, List.filter_cons, h, ih]
    | succ k =>
      by_cases h : p a = true
      · simp [takeFiltered, List.filter_cons, h, ih]
      · simp only [Bool.not_eq_true] at h
        simp [takeFiltered, List.filter_cons, h, ih]

theorem leScore_trans (s : ℕ → ℝ) (a b c : ℕ)
    (hab : leScore s a b = true) (hbc : leScore s b c = true) :
    leScore s a c = true := by
  simp only [leScore, decide_eq_true_eq] at *
  rcases hab with h1 | ⟨h1, h1'⟩ <;> rcases hbc with h2 | ⟨h2, h2'⟩
  · exact Or.inl (h1.trans h2)
  · exact Or.inl (h2 ▸ h1)
  · exact Or.inl (h1 ▸ h2)
  · exact Or.inr ⟨h1.trans h2, h1'.trans h2'⟩

theorem leScore_total (s : ℕ → ℝ) (a b : ℕ) :
    (leScore s a b || leScore s b a) = true := by
  simp only [leScore, Bool.or_eq_true, decide_eq_true_eq]
  rcases lt_trichotomy (s a) (s b) with h | h | h
  · exact Or.inl (Or.inl h)
  · rcases Nat.le_total a b with hle | hle
    · exact Or.inl (Or.inr ⟨h, hle⟩)
    · exact Or.inr (Or.inr ⟨h.symm, hle⟩)
  · exact Or.inr (Or.inl h)

namespace EnhancedKnowledgeBase

/-- The candidate order is a permutation of the corpus positions. -/
theorem sortedIndices_perm (kb : EnhancedKnowledgeBase) (q : String) :
    (kb.sortedIndices q).Perm (List.range kb.corpus.length) := by
  unfold sortedIndices
  exact (List.reverse_perm _).trans (List.mergeSort_perm _ _)

theorem sortedIndices_nodup (kb : EnhancedKnowledgeBase) (q : String) :
    (kb.sortedIndices q).Nodup :=
  ((kb.sortedIndices_perm q).symm).nodup (List.nodup_range _)

theorem mem_sortedIndices (kb : EnhancedKnowledgeBase) (q : String) (i : ℕ) :
    i ∈ kb.sortedIndices q ↔ i < kb.corpus.length := by
  rw [(kb.sortedIndices_perm q).mem_iff, List.mem_range]

/-- Along the candidate order, a later index never has a larger score, and
an index appearing before another with the same score is the larger one. -/
theorem sortedIndices_pairwise (kb : EnhancedKnowledgeBase) (q : String) :
    (kb.sortedIndices q).Pairwise
      (fun i j => kb.score q j < kb.score q i ∨
        (kb.score q j = kb.score q i ∧ j ≤ i)) := by
  have h := List.sorted_mergeSort
    (leScore_trans (kb.score q)) (leScore_total (kb.score q))
    (List.range kb.corpus.length)
  unfold sortedIndices
  rw [List.pairwise_reverse]
  exact h.imp (by
    intro a b hab
    simpa only [leScore, decide_eq_true_eq] using hab)

/-- The accepted positions are the first five in the candidate order that
pass the threshold and both filters. -/
theorem selectedIndices_eq (kb : EnhancedKnowledgeBase) (q : String)
    (domains capabilities : List String) :
    kb.selectedIndices q domains capabilities =
      ((kb.sortedIndices q).filter (kb.passes q domains capabilities)).take 5 := by
  unfold selectedIndices
  exact takeFiltered_eq _ _ _

theorem selectedIndices_sublist (kb : EnhancedKnowledgeBase) (q : String)
    (domains capabilities : List String) :
    (kb.selectedIndices q domains capabilities).Sublist (kb.sortedIndices q) := by
  rw [selectedIndices_eq]
  exact (List.take_sublist _ _).trans (List.filter_sublist _)

theorem selectedIndices_nodup (kb : EnhancedKnowledgeBase) (q : String)
    (domains capabilities : List String) :
    (kb.selectedIndices q domains capabilities).Nodup :=
  (kb.selectedIndices_sublist q domains capabilities).nodup (kb.sortedIndices_nodup q)

theorem mem_selectedIndices_lt (kb : EnhancedKnowledgeBase) (q : String)
    (domains capabilities : List String) (i : ℕ)
    (h : i ∈ kb.selectedIndices q domains capabilities) : i < kb.corpus.length :=
  (kb.mem_sortedIndices q i).mp
    ((kb.selectedIndices_sublist q domains capabilities).mem h)

theorem mem_selectedIndices_passes (kb : EnhancedKnowledgeBase) (q : String)
    (domains capabilities : List String) (i : ℕ)
    (h : i ∈ kb.selectedIndices q domains capabilities) :
    kb.passes q domains capabilities i = true := by
  rw [selectedIndices_eq] at h
  exact (List.mem_filter.mp (List.mem_of_mem_take h)).2

theorem query_items_eq (kb : EnhancedKnowledgeBase) (q : String)
    (domains capabilities : List String) (now : String) :
    (kb.query q domains capabilities now).items =
      (kb.selectedIndices q domains capabilities).map (kb.annotate q) := rfl

end EnhancedKnowledgeBase

/-! ### Analytic lemmas: similarity scores lie in the unit interval -/

theorem sum_map_fin {α : Type} (l : List α) (f : α → ℝ) :
    (l.map f).sum = ∑ i : Fin l.length, f (l.get i) := by
  induction l with
  | nil => simp
  | cons a l ih =>
    rw [List.map_cons, List.sum_cons, ih]
    exact (Fin.sum_univ_succ fun i : Fin (l.length + 1) => f ((a :: l).get i)).symm

theorem sumSq_nonneg (vocab : List String) (f : String → ℝ) : 0 ≤ sumSq vocab f := by
  refine List.sum_nonneg ?_
  intro x hx
  obtain ⟨t, _, rfl⟩ := List.mem_map.mp hx
  positivity

theorem l2norm_nonneg (vocab : List String) (f : String → ℝ) : 0 ≤ l2norm vocab f :=
  Real.sqrt_nonneg _

theorem dotProd_nonneg (vocab : List String) (f g : String → ℝ)
    (hf : ∀ t ∈ vocab, 0 ≤ f t) (hg : ∀ t ∈ vocab, 0 ≤ g t) :
    0 ≤ dotProd vocab f g := by
  refine List.sum_nonneg ?_
  intro x hx
  obtain ⟨t, ht, rfl⟩ := List.mem_map.mp hx
  exact mul_nonneg (hf t ht) (hg t ht)

/-- Cauchy-Schwarz for vocabulary-indexed vectors with a nonnegative dot
product: the dot product is at most the product of the norms. -/
theorem dotProd_le_norm_mul_norm (vocab : List String) (f g : String → ℝ)
    (hd : 0 ≤ dotProd vocab f g) :
    dotProd vocab f g ≤ l2norm vocab f * l2norm vocab g := by
  have hcs := Finset.sum_mul_sq_le_sq_mul_sq Finset.univ
    (fun i : Fin vocab.length => f (vocab.get i))
    (fun i : Fin vocab.length => g (vocab.get i))
  have hdot : dotProd vocab f g =
      ∑ i : Fin vocab.length, f (vocab.get i) * g (vocab.get i) :=
    sum_map_fin vocab (fun t => f t * g t)
  have hsf : sumSq vocab f = ∑ i : Fin vocab.length, f (vocab.get i) ^ 2 :=
    sum_map_fin vocab (fun t => f t ^ 2)
  have hsg : sumSq vocab g = ∑ i : Fin vocab.length, g (vocab.get i) ^ 2 :=
    sum_map_fin vocab (fun t => g t ^ 2)
  have h2 : dotProd vocab f g ^ 2 ≤ sumSq vocab f * sumSq vocab g := by
    rw [hdot, hsf, hsg]; exact hcs
  calc dotProd vocab f g = Real.sqrt (dotProd vocab f g ^ 2) :=
        (Real.sqrt_sq hd).symm
    _ ≤ Real.sqrt (sumSq vocab f * sumSq vocab g) := Real.sqrt_le_sqrt h2
    _ = l2norm vocab f * l2norm vocab g := Real.sqrt_mul (sumSq_nonneg vocab f) _

theorem l2normalize_nonneg (vocab : List String) (f : String → ℝ)
    (hf : ∀ t ∈ vocab, 0 ≤ f t) :
    ∀ t ∈ vocab, 0 ≤ l2normalize vocab f t := by
  intro t ht
  unfold l2normalize
  split
  · exact hf t ht
  · exact div_nonneg (hf t ht) (l2norm_nonneg vocab f)

theorem sumSq_l2normalize (vocab : List String) (f : String → ℝ) :
    sumSq vocab (l2normalize vocab f) = if l2norm vocab f = 0 then 0 else 1 := by
  by_cases h : l2norm vocab f = 0
  · rw [if_pos h]
    have h0 : sumSq vocab f = 0 :=
      le_antisymm (Real.sqrt_eq_zero'.mp h) (sumSq_nonneg vocab f)
    have : sumSq vocab (l2normalize vocab f) = sumSq vocab f := by
      unfold sumSq l2normalize
      simp [h]
    rw [this, h0]
  · rw [if_neg h]
    have hS : Real.sqrt (sumSq vocab f) ≠ 0 := h
    have hS0 : sumSq vocab f ≠ 0 := by
      intro h0
      exact hS (by rw [h0, Real.sqrt_zero])
    have hexp : sumSq vocab (l2normalize vocab f) =
        (sumSq vocab f)⁻¹ * sumSq vocab f := by
      unfold sumSq l2normalize
      simp only [if_neg h]
      have : (fun t => (f t / l2norm vocab f) ^ 2) =
          (fun t => (sumSq vocab f)⁻¹ * f t ^ 2) := by
        funext t
        rw [div_pow, div_eq_inv_mul]
        congr 2
        unfold l2norm
        exact Real.sq_sqrt (sumSq_nonneg vocab f)
      rw [this]
      exact List.sum_map_mul_left _ _ _
    rw [hexp, inv_mul_cancel₀ hS0]

theorem l2norm_l2normalize_le_one (vocab : List String) (f : String → ℝ) :
    l2norm vocab (l2normalize vocab f) ≤ 1 := by
  unfold l2norm
  rw [sumSq_l2normalize]
  split
  · simp
  · simp

theorem cosineSim_nonneg (vocab : List String) (f g : String → ℝ)
    (hf : ∀ t ∈ vocab, 0 ≤ f t) (hg : ∀ t ∈ vocab, 0 ≤ g t) :
    0 ≤ cosineSim vocab f g :=
  dotProd_nonneg vocab _ _ (l2normalize_nonneg vocab f hf) (l2normalize_nonneg vocab g hg)

theorem cosineSim_le_one (vocab : List String) (f g : String → ℝ)
    (hf : ∀ t ∈ vocab, 0 ≤ f t) (hg : ∀ t ∈ vocab, 0 ≤ g t) :
    cosineSim vocab f g ≤ 1 := by
  have h1 : cosineSim vocab f g ≤
      l2norm vocab (l2normalize vocab f) * l2norm vocab (l2normalize vocab g) :=
    dotProd_le_norm_mul_norm vocab _ _ (cosineSim_nonneg vocab f g hf hg)
  calc cosineSim vocab f g ≤ _ := h1
    _ ≤ 1 * 1 := by
        exact mul_le_mul (l2norm_l2normalize_le_one vocab f)
          (l2norm_l2normalize_le_one vocab g) (l2norm_nonneg _ _) zero_le_one
    _ = 1 := one_mul 1

theorem df_le_length (stopWords : List String) (texts : List String) (t : String) :
    df stopWords texts t ≤ texts.length :=
  List.countP_le_length _

theorem idf_nonneg (stopWords : List String) (texts : List String) (t : String) :
    0 ≤ idf stopWords texts t := by
  unfold idf
  have hd : (0 : ℝ) < 1 + (df stopWords texts t : ℝ) := by positivity
  have hle : (1 : ℝ) + (df stopWords texts t : ℝ) ≤ 1 + (texts.length : ℝ) := by
    have := df_le_length stopWords texts t
    have : (df stopWords texts t : ℝ) ≤ (texts.length : ℝ) := Nat.cast_le.mpr this
    linarith
  have hlog : 0 ≤ Real.log ((1 + (texts.length : ℝ)) / (1 + (df stopWords texts t : ℝ))) :=
    Real.log_nonneg ((one_le_div hd).mpr hle)
  linarith

theorem rawWeight_nonneg (stopWords : List String) (texts : List String)
    (text t : String) : 0 ≤ rawWeight stopWords texts text t :=
  mul_nonneg (Nat.cast_nonneg _) (idf_nonneg stopWords texts t)

theorem score_nonneg (kb : EnhancedKnowledgeBase) (q : String) (i : ℕ) :
    0 ≤ kb.score q i :=
  cosineSim_nonneg _ _ _ (fun t _ => rawWeight_nonneg _ _ _ t)
    (fun t _ => rawWeight_nonneg _ _ _ t)

theorem score_le_one (kb : EnhancedKnowledgeBase) (q : String) (i : ℕ) :
    kb.score q i ≤ 1 :=
  cosineSim_le_one _ _ _ (fun t _ => rawWeight_nonneg _ _ _ t)
    (fun t _ => rawWeight_nonneg _ _ _ t)

/-! ### Zero-vector lemmas: queries with no vocabulary overlap -/

theorem tokenize_empty_string (stopWords : List String) : tokenize stopWords "" = [] := rfl

theorem rawWeight_eq_zero (stopWords : List String) (texts : List String)
    (text t : String) (h : t ∉ tokenize stopWords text) :
    rawWeight stopWords texts text t = 0 := by
  unfold rawWeight tf
  rw [List.count_eq_zero.mpr h]
  simp

theorem l2normalize_eq_zero (vocab : List String) (f : String → ℝ) (t : String)
    (h : f t = 0) : l2normalize vocab f t = 0 := by
  unfold l2normalize
  split
  · exact h
  · rw [h, zero_div]

theorem dotProd_eq_zero_left (vocab : List String) (f g : String → ℝ)
    (h : ∀ t ∈ vocab, f t = 0) : dotProd vocab f g = 0 := by
  refine List.sum_eq_zero ?_
  intro x hx
  obtain ⟨t, ht, rfl⟩ := List.mem_map.mp hx
  rw [h t ht, zero_mul]

theorem transform_eq_zero_of_disjoint (stopWords : List String) (texts : List String)
    (text : String)
    (h : ∀ tok ∈ tokenize stopWords text, tok ∉ vocabulary stopWords texts) :
    ∀ t ∈ vocabulary stopWords texts, transform stopWords texts text t = 0 := by
  intro t ht
  unfold transform
  refine l2normalize_eq_zero _ _ _ ?_
  refine rawWeight_eq_zero _ _ _ _ ?_
  intro hmem
  exact h t hmem ht

theorem score_eq_zero_of_disjoint (kb : EnhancedKnowledgeBase) (q : String)
    (h : ∀ tok ∈ tokenize kb.stopWords q, tok ∉ kb.vocab) (i : ℕ) :
    kb.score q i = 0 := by
  unfold EnhancedKnowledgeBase.score cosineSim
  refine dotProd_eq_zero_left _ _ _ ?_
  intro t ht
  refine l2normalize_eq_zero _ _ _ ?_
  refine rawWeight_eq_zero _ _ _ _ ?_
  intro hmem
  exact h t hmem ht

theorem selectedIndices_eq_nil_of_low (kb : EnhancedKnowledgeBase) (q : String)
    (domains capabilities : List String)
    (h : ∀ i, kb.score q i < 0.1) :
    kb.selectedIndices q domains capabilities = [] := by
  rw [EnhancedKnowledgeBase.selectedIndices_eq]
  have : (kb.sortedIndices q).filter (kb.passes q domains capabilities) = [] := by
    rw [List.filter_eq_nil_iff]
    intro i _
    unfold EnhancedKnowledgeBase.passes
    simp [h i]
  rw [this]
  rfl

theorem query_items_empty_of_disjoint (kb : EnhancedKnowledgeBase) (q : String)
    (domains capabilities : List String) (now : String)
    (h : ∀ tok ∈ tokenize kb.stopWords q, tok ∉ kb.vocab) :
    (kb.query q domains capabilities now).items = [] := by
  rw [EnhancedKnowledgeBase.query_items_eq,
    selectedIndices_eq_nil_of_low kb q domains capabilities ?_]
  · rfl
  · intro i
    rw [score_eq_zero_of_disjoint kb q h i]
    norm_num

/-! ### Evaluation lemmas for concrete fitted engines -/

theorem idf_eq_one_of_df_eq_length (stopWords : List String) (texts : List String)
    (t : String) (h : df stopWords texts t = texts.length) :
    idf stopWords texts t = 1 := by
  unfold idf
  rw [h]
  have hp : (0 : ℝ) < 1 + (texts.length : ℝ) := by positivity
  rw [div_self (ne_of_gt hp), Real.log_one]
  ring

theorem cosineSim_single (t : String) (f g : String → ℝ)
    (hf : f t = 1) (hg : g t = 1) : cosineSim [t] f g = 1 := by
  have hnf : l2norm [t] f = 1 := by
    unfold l2norm sumSq
    simp [hf]
  have hng : l2norm [t] g = 1 := by
    unfold l2norm sumSq
    simp [hg]
  unfold cosineSim dotProd l2normalize
  simp [hnf, hng, hf, hg]

theorem score_eq_one (kb : EnhancedKnowledgeBase) (q : String) (i : ℕ) (t : String)
    (hv : kb.vocab = [t])
    (hq : tf (tokenize kb.stopWords q) t = 1)
    (hd : tf (tokenize kb.stopWords (kb.corpusTexts.getD i "")) t = 1)
    (hidf : idf kb.stopWords kb.corpusTexts t = 1) :
    kb.score q i = 1 := by
  unfold EnhancedKnowledgeBase.score
  rw [hv]
  apply cosineSim_single
  · unfold rawWeight
    rw [hq, hidf]
    simp
  · unfold rawWeight
    rw [hd, hidf]
    simp

/-- When all scores agree, the stable ascending argsort leaves the index
range in place, so the reversed candidate order is the reversed range. -/
theorem sortedIndices_eq_reverse_range (kb : EnhancedKnowledgeBase) (q : String)
    (h : ∀ i, i < kb.corpus.length → ∀ j, j < kb.corpus.length →
      kb.score q i = kb.score q j) :
    kb.sortedIndices q = (List.range kb.corpus.length).reverse := by
  unfold EnhancedKnowledgeBase.sortedIndices
  congr 1
  apply List.mergeSort_of_sorted
  have hp := List.pairwise_lt_range kb.corpus.length
  refine hp.imp_of_mem ?_
  intro a b ha hb hab
  rw [List.mem_range] at ha hb
  unfold leScore
  simp only [decide_eq_true_eq]
  exact Or.inr ⟨h a ha b hb, Nat.le_of_lt hab⟩

theorem passesFilters_nil (item : KnowledgeItem) : passesFilters item [] [] = true := rfl

theorem passes_true_of (kb : EnhancedKnowledgeBase) (q : String)
    (domains capabilities : List String) (i : ℕ)
    (h1 : ¬ kb.score q i < 0.1)
    (h2 : passesFilters (kb.corpus.getD i default) domains capabilities = true) :
    kb.passes q domains capabilities i = true := by
  unfold EnhancedKnowledgeBase.passes
  rw [h2, Bool.and_true, decide_eq_false h1]
  rfl

theorem passes_false_of_filters (kb : EnhancedKnowledgeBase) (q : String)
    (domains capabilities : List String) (i : ℕ)
    (h2 : passesFilters (kb.corpus.getD i default) domains capabilities = false) :
    kb.passes q domains capabilities i = false := by
  unfold EnhancedKnowledgeBase.passes
  rw [h2, Bool.and_false]

/-! ### Concrete fitted engines used as test inputs -/

/-- A minimal corpus item with the given identifier, domain tag and
content; all other fields empty. -/
def sampleItem (id dom content : String) : KnowledgeItem :=
  { id := id, title := "", description := "", content := content,
    categories := [], keywords := [], source := "",
    domain := dom, capabilities := [], relevance := 0 }

/-- A fitted engine over a one-item corpus. -/
def kbOne : EnhancedKnowledgeBase :=
  { domains := [], corpus := [sampleItem "a0" "business" "aa"], stopWords := [] }

/-- A fitted engine over two corpus items with identical content, hence
identical similarity scores for every query. -/
def kbPair : EnhancedKnowledgeBase :=
  { domains := [],
    corpus := [sampleItem "a0" "business" "aa", sampleItem "a1" "business" "aa"],
    stopWords := [] }

/-- A fitted engine over six corpus items with identical content; item 0 is
the only one in the `legal` domain, items 1-5 are in `business`. -/
def kbSix : EnhancedKnowledgeBase :=
  { domains := [],
    corpus := [sampleItem "a0" "legal" "aa", sampleItem "a1" "business" "aa",
               sampleItem "a2" "business" "aa", sampleItem "a3" "business" "aa",
               sampleItem "a4" "business" "aa", sampleItem "a5" "business" "aa"],
    stopWords := [] }

/-- A fitted engine with a nonempty stop-word list. -/
def kbStop : EnhancedKnowledgeBase :=
  { domains := [], corpus := [sampleItem "w1" "business" "aa bb"],
    stopWords := ["the"] }

theorem kbOne_score : kbOne.score "aa" 0 = 1 := by
  apply score_eq_one kbOne "aa" 0 "aa" (by decide) (by decide) (by decide)
  exact idf_eq_one_of_df_eq_length _ _ _ (by decide)

theorem kbPair_score (i : ℕ) (h : i < 2) : kbPair.score "aa" i = 1 := by
  interval_cases i <;>
    · apply score_eq_one kbPair "aa" _ "aa" (by decide) (by decide) (by decide)
      exact idf_eq_one_of_df_eq_length _ _ _ (by decide)

theorem kbSix_score (i : ℕ) (h : i < 6) : kbSix.score "aa" i = 1 := by
  interval_cases i <;>
    · apply score_eq_one kbSix "aa" _ "aa" (by decide) (by decide) (by decide)
      exact idf_eq_one_of_df_eq_length _ _ _ (by decide)

theorem kbOne_sorted : kbOne.sortedIndices "aa" = [0] := by
  rw [sortedIndices_eq_reverse_range]
  · rfl
  · intro i hi j hj
    have hl : kbOne.corpus.length = 1 := rfl
    rw [hl] at hi hj
    interval_cases i
    interval_cases j
    rfl

theorem kbPair_sorted : kbPair.sortedIndices "aa" = [1, 0] := by
  rw [sortedIndices_eq_reverse_range]
  · rfl
  · intro i hi j hj
    have hl : kbPair.corpus.length = 2 := rfl
    rw [hl] at hi hj
    rw [kbPair_score i hi, kbPair_score j hj]

theorem kbSix_sorted : kbSix.sortedIndices "aa" = [5, 4, 3, 2, 1, 0] := by
  rw [sortedIndices_eq_reverse_range]
  · rfl
  · intro i hi j hj
    have hl : kbSix.corpus.length = 6 := rfl
    rw [hl] at hi hj
    rw [kbSix_score i hi, kbSix_score j hj]

theorem kbOne_passes (domains capabilities : List String)
    (h2 : passesFilters (kbOne.corpus.getD 0 default) domains capabilities = true) :
    kbOne.passes "aa" domains capabilities 0 = true := by
  apply passes_true_of
  · rw [kbOne_score]
    norm_num
  · exact h2

theorem kbOne_selected : kbOne.selectedIndices "aa" [] [] = [0] := by
  unfold EnhancedKnowledgeBase.selectedIndices
  rw [kbOne_sorted]
  simp [takeFiltered, kbOne_passes [] [] (by decide)]

theorem kbOne_selected_business :
    kbOne.selectedIndices "aa" ["business"] [] = [0] := by
  unfold EnhancedKnowledgeBase.selectedIndices
  rw [kbOne_sorted]
  simp [takeFiltered, kbOne_passes ["business"] [] (by decide)]

theorem kbOne_items (now : String) :
    (kbOne.query "aa" [] [] now).items = [kbOne.annotate "aa" 0] := by
  rw [EnhancedKnowledgeBase.query_items_eq, kbOne_selected]
  rfl

theorem kbOne_items_business (now : String) :
    (kbOne.query "aa" ["business"] [] now).items = [kbOne.annotate "aa" 0] := by
  rw [EnhancedKnowledgeBase.query_items_eq, kbOne_selected_business]
  rfl

theorem kbSix_passes_true (domains capabilities : List String) (i : ℕ) (hi : i < 6)
    (h2 : passesFilters (kbSix.corpus.getD i default) domains capabilities = true) :
    kbSix.passes "aa" domains capabilities i = true := by
  apply passes_true_of
  · rw [kbSix_score i hi]
    norm_num
  · exact h2

theorem kbSix_selected_unfiltered :
    kbSix.selectedIndices "aa" [] [] = [5, 4, 3, 2, 1] := by
  unfold EnhancedKnowledgeBase.selectedIndices
  rw [kbSix_sorted]
  simp [takeFiltered,
    kbSix_passes_true [] [] 5 (by norm_num) (by decide),
    kbSix_passes_true [] [] 4 (by norm_num) (by decide),
    kbSix_passes_true [] [] 3 (by norm_num) (by decide),
    kbSix_passes_true [] [] 2 (by norm_num) (by decide),
    kbSix_passes_true [] [] 1 (by norm_num) (by decide)]

theorem kbSix_selected_legal :
    kbSix.selectedIndices "aa" ["legal"] [] = [0] := by
  unfold EnhancedKnowledgeBase.selectedIndices
  rw [kbSix_sorted]
  simp [takeFiltered,
    passes_false_of_filters kbSix "aa" ["legal"] [] 5 (by decide),
    passes_false_of_filters kbSix "aa" ["legal"] [] 4 (by decide),
    passes_false_of_filters kbSix "aa" ["legal"] [] 3 (by decide),
    passes_false_of_filters kbSix "aa" ["legal"] [] 2 (by decide),
    passes_false_of_filters kbSix "aa" ["legal"] [] 1 (by decide),
    kbSix_passes_true ["legal"] [] 0 (by norm_num) (by decide)]

/-! ### Vocabulary emptiness characterization -/

theorem insertSorted_ne_nil (a : String) (l : List String) : insertSorted a l ≠ [] := by
  cases l with
  | nil => simp [insertSorted]
  | cons b t =>
    unfold insertSorted
    split <;> simp

theorem sortStrings_eq_nil_iff (l : List String) : sortStrings l = [] ↔ l = [] := by
  cases l with
  | nil => simp [sortStrings]
  | cons a t =>
    unfold sortStrings
    constructor
    · intro h
      exact absurd h (insertSorted_ne_nil _ _)
    · intro h
      exact absurd h (List.cons_ne_nil a t)

theorem vocabulary_eq_nil_iff (stopWords : List String) (texts : List String) :
    vocabulary stopWords texts = [] ↔ ∀ text ∈ texts, tokenize stopWords text = [] := by
  unfold vocabulary
  rw [sortStrings_eq_nil_iff, List.dedup_eq_nil, List.flatMap_eq_nil_iff]

/-! ### Claim theorems -/

/-- C1: for every fitted engine and every query call, every item in the
returned `items` list has a `similarity_score` at least 0.1 and at most
1.0, and the `similarity_score` values are non-increasing from the first
returned item to the last. -/
theorem query_similarity_scores_bounded_and_monotone (kb : EnhancedKnowledgeBase)
    (q : String) (domains capabilities : List String) (now : String) :
    (∀ r ∈ (kb.query q domains capabilities now).items,
      0.1 ≤ r.similarity_score ∧ r.similarity_score ≤ 1) ∧
    ((kb.query q domains capabilities now).items.map
      (fun r => r.similarity_score)).Pairwise (fun a b => b ≤ a) := by
  constructor
  · intro r hr
    rw [EnhancedKnowledgeBase.query_items_eq] at hr
    obtain ⟨i, hi, rfl⟩ := List.mem_map.mp hr
    have hp := kb.mem_selectedIndices_passes q domains capabilities i hi
    unfold EnhancedKnowledgeBase.passes at hp
    simp only [Bool.and_eq_true, Bool.not_eq_true', decide_eq_false_iff_not] at hp
    exact ⟨not_lt.mp hp.1, score_le_one kb q i⟩
  · rw [EnhancedKnowledgeBase.query_items_eq, List.map_map, List.pairwise_map]
    refine List.Pairwise.sublist (kb.selectedIndices_sublist q domains capabilities) ?_
    refine (kb.sortedIndices_pairwise q).imp ?_
    intro i j h
    rcases h with h | ⟨heq, _⟩
    · exact le_of_lt h
    · exact le_of_eq heq

/-- C1 witness: on a concrete one-item fitted engine the query "aa" returns
an item, and its score satisfies the bounds. -/
theorem query_similarity_scores_bounded_and_monotone_witness :
    0.1 ≤ (kbOne.annotate "aa" 0).similarity_score ∧
    (kbOne.annotate "aa" 0).similarity_score ≤ 1 :=
  (query_similarity_scores_bounded_and_monotone kbOne "aa" [] [] "t").1
    (kbOne.annotate "aa" 0)
    (by rw [kbOne_items]; exact List.mem_singleton.mpr rfl)

/-- C2: every query call returns at most 5 items and never more items than
the corpus contains (the loop stops at 5 accepted items or when the sorted
candidate list is exhausted). -/
theorem query_result_length_at_most_five_and_corpus (kb : EnhancedKnowledgeBase)
    (q : String) (domains capabilities : List String) (now : String) :
    (kb.query q domains capabilities now).items.length ≤ 5 ∧
    (kb.query q domains capabilities now).items.length ≤ kb.corpus.length := by
  rw [EnhancedKnowledgeBase.query_items_eq, List.length_map,
    EnhancedKnowledgeBase.selectedIndices_eq]
  constructor
  · rw [List.length_take]
    exact min_le_left _ _
  · calc (List.take 5 ((kb.sortedIndices q).filter
          (kb.passes q domains capabilities))).length
        ≤ ((kb.sortedIndices q).filter (kb.passes q domains capabilities)).length := by
          rw [List.length_take]
          exact min_le_right _ _
      _ ≤ (kb.sortedIndices q).length := List.length_filter_le _ _
      _ = kb.corpus.length := by
          rw [(kb.sortedIndices_perm q).length_eq, List.length_range]

/-- C3 counterexample: the claim says `query` raises `InvalidQueryError` on
an empty query text; on a concrete fitted engine the source's `query`
instead returns normally on the empty string, with an empty `items` list
(there is no raise anywhere in `query`). -/
theorem empty_query_returns_normally_cex :
    EnhancedKnowledgeBase.init [] [] [sampleItem "a0" "business" "aa"] =
      Except.ok kbOne ∧
    (kbOne.query "" [] [] "2024-01-01T00:00:00").items = [] := by
  refine ⟨rfl, ?_⟩
  apply query_items_empty_of_disjoint
  intro tok htok
  rw [tokenize_empty_string] at htok
  exact absurd htok (List.not_mem_nil tok)

/-- C3 amended: `query` never raises for any text query; an empty query
text, like any query with zero matches, yields a normal response whose
`items` list is empty. -/
theorem query_empty_text_returns_empty_items (kb : EnhancedKnowledgeBase)
    (domains capabilities : List String) (now : String) :
    (kb.query "" domains capabilities now).items = [] := by
  apply query_items_empty_of_disjoint
  intro tok htok
  rw [tokenize_empty_string] at htok
  exact absurd htok (List.not_mem_nil tok)

/-- C4 counterexample: the claim says equal-score ties put the smaller
corpus position first; on a concrete fitted engine with two identical
items both scoring the same, the candidate order produced by reversing the
stable ascending argsort is `[1, 0]` — the larger position first. -/
theorem argsort_tie_smaller_position_first_cex :
    EnhancedKnowledgeBase.init [] []
        [sampleItem "a0" "business" "aa", sampleItem "a1" "business" "aa"] =
      Except.ok kbPair ∧
    kbPair.score "aa" 0 = kbPair.score "aa" 1 ∧
    kbPair.sortedIndices "aa" = [1, 0] := by
  refine ⟨rfl, ?_, kbPair_sorted⟩
  rw [kbPair_score 0 (by norm_num), kbPair_score 1 (by norm_num)]

/-- C4 amended: the candidate indices are a permutation of the corpus
positions ordered by similarity score descending, and whenever two corpus
items have equal scores the item with the larger original corpus position
comes first (the ascending argsort is reversed); the order is still a
deterministic function of the input. -/
theorem sortedIndices_descending_ties_larger_position_first
    (kb : EnhancedKnowledgeBase) (q : String) :
    (kb.sortedIndices q).Perm (List.range kb.corpus.length) ∧
    (kb.sortedIndices q).Pairwise (fun i j =>
      kb.score q j < kb.score q i ∨ (kb.score q j = kb.score q i ∧ j < i)) := by
  refine ⟨kb.sortedIndices_perm q, ?_⟩
  have h1 := kb.sortedIndices_pairwise q
  have h2 : (kb.sortedIndices q).Pairwise (fun i j => i ≠ j) :=
    kb.sortedIndices_nodup q
  refine (h1.and h2).imp ?_
  intro i j h
  obtain ⟨hR, hne⟩ := h
  rcases hR with h | ⟨heq, hle⟩
  · exact Or.inl h
  · exact Or.inr ⟨heq, lt_of_le_of_ne hle (Ne.symm hne)⟩

/-- C5 counterexample: the claim says two calls with identical query,
domains and capabilities against the same engine yield identical output
values including all response fields; the response embeds the wall-clock
reading `datetime.now().isoformat()` in `metadata.timestamp`, so two calls
at different instants differ. -/
theorem query_output_differs_across_calls_cex :
    EnhancedKnowledgeBase.init [] [] [sampleItem "a0" "business" "aa"] =
      Except.ok kbOne ∧
    kbOne.query "aa" [] [] "2024-01-01T00:00:00" ≠
      kbOne.query "aa" [] [] "2024-01-01T00:00:01" := by
  refine ⟨rfl, ?_⟩
  intro h
  have ht := congrArg (fun r => r.metadata.timestamp) h
  have ht' : ("2024-01-01T00:00:00" : String) = "2024-01-01T00:00:01" := ht
  exact absurd ht' (by decide)

/-- C5 amended: two calls with identical query, domains and capabilities
against the same unchanged fitted engine yield identical output values in
every response field except `metadata.timestamp`, which records the
wall-clock time of each call: the items (including order), the sources and
the remaining metadata fields coincide. -/
theorem query_deterministic_apart_from_timestamp (kb : EnhancedKnowledgeBase)
    (q : String) (domains capabilities : List String) (t1 t2 : String) :
    (kb.query q domains capabilities t1).items =
      (kb.query q domains capabilities t2).items ∧
    (kb.query q domains capabilities t1).sources =
      (kb.query q domains capabilities t2).sources ∧
    (kb.query q domains capabilities t1).metadata.query =
      (kb.query q domains capabilities t2).metadata.query ∧
    (kb.query q domains capabilities t1).metadata.domains =
      (kb.query q domains capabilities t2).metadata.domains ∧
    (kb.query q domains capabilities t1).metadata.capabilities =
      (kb.query q domains capabilities t2).metadata.capabilities :=
  ⟨rfl, rfl, rfl, rfl, rfl⟩

/-- C6 counterexample: the claim says a filtered query only removes items
from the unfiltered result; on a concrete fitted engine with six
above-threshold items, the unfiltered query returns the top-5 positions
`a5..a1`, while the domain filter `legal` surfaces item `a0`, which the
unfiltered result lacks. -/
theorem domain_filter_reveals_new_item_cex :
    EnhancedKnowledgeBase.init [] [] kbSix.corpus = Except.ok kbSix ∧
    ((kbSix.query "aa" ["legal"] [] "t").items.map (fun r => r.item.id)) = ["a0"] ∧
    ((kbSix.query "aa" [] [] "t").items.map (fun r => r.item.id)) =
      ["a5", "a4", "a3", "a2", "a1"] ∧
    "a0" ∉ ((kbSix.query "aa" [] [] "t").items.map (fun r => r.item.id)) := by
  refine ⟨rfl, ?_, ?_, ?_⟩
  · rw [EnhancedKnowledgeBase.query_items_eq, kbSix_selected_legal]
    rfl
  · rw [EnhancedKnowledgeBase.query_items_eq, kbSix_selected_unfiltered]
    rfl
  · rw [EnhancedKnowledgeBase.query_items_eq, kbSix_selected_unfiltered]
    have hmap : ((([5, 4, 3, 2, 1] : List ℕ).map (kbSix.annotate "aa")).map
        (fun r => r.item.id)) = ["a5", "a4", "a3", "a2", "a1"] := rfl
    rw [hmap]
    decide

/-- C6 amended: whenever the unfiltered query result is below the 5-item
cap, every result item of the same query with any domain or capability
filter is also present in the unfiltered result; when the unfiltered
result hits the cap, a filtered query may surface items beyond the
unfiltered top-5. -/
theorem filtered_results_subset_when_under_cap (kb : EnhancedKnowledgeBase)
    (q : String) (domains capabilities : List String) (now : String)
    (h : (kb.query q [] [] now).items.length < 5) :
    ∀ r ∈ (kb.query q domains capabilities now).items,
      r ∈ (kb.query q [] [] now).items := by
  intro r hr
  have hlen : ((kb.sortedIndices q).filter (kb.passes q [] [])).length < 5 := by
    rw [EnhancedKnowledgeBase.query_items_eq, List.length_map,
      EnhancedKnowledgeBase.selectedIndices_eq, List.length_take] at h
    rcases lt_or_ge ((kb.sortedIndices q).filter (kb.passes q [] [])).length 5
      with hl | hl
    · exact hl
    · rw [min_eq_left hl] at h
      exact absurd h (lt_irrefl 5)
  have huntake : kb.selectedIndices q [] [] =
      (kb.sortedIndices q).filter (kb.passes q [] []) := by
    rw [EnhancedKnowledgeBase.selectedIndices_eq]
    exact List.take_of_length_le (le_of_lt hlen)
  rw [EnhancedKnowledgeBase.query_items_eq] at hr ⊢
  obtain ⟨i, hi, rfl⟩ := List.mem_map.mp hr
  refine List.mem_map_of_mem _ ?_
  rw [huntake, List.mem_filter]
  refine ⟨(kb.selectedIndices_sublist q domains capabilities).mem hi, ?_⟩
  have hp := kb.mem_selectedIndices_passes q domains capabilities i hi
  unfold EnhancedKnowledgeBase.passes at hp ⊢
  rw [Bool.and_eq_true] at hp
  rw [passesFilters_nil, Bool.and_true]
  exact hp.1

/-- C6 witness: on a concrete one-item fitted engine the unfiltered result
has fewer than 5 items, and the item returned under the domain filter
`business` is present in the unfiltered result. -/
theorem filtered_results_subset_when_under_cap_witness :
    (kbOne.query "aa" [] [] "t").items.length < 5 ∧
    kbOne.annotate "aa" 0 ∈ (kbOne.query "aa" [] [] "t").items := by
  have hlen : (kbOne.query "aa" [] [] "t").items.length < 5 := by
    rw [kbOne_items]
    norm_num
  refine ⟨hlen, ?_⟩
  exact filtered_results_subset_when_under_cap kbOne "aa" ["business"] [] "t" hlen
    (kbOne.annotate "aa" 0)
    (by rw [kbOne_items_business]; exact List.mem_singleton.mpr rfl)

/-- C7: for every query whose tokens are all stop-words or all absent from
the fitted vocabulary, the query vector is the zero vector over the
vocabulary, its similarity to every corpus item is zero (with no division
by zero, by the zero-norm guard), and the query call returns an empty item
list. -/
theorem zero_overlap_query_returns_empty (kb : EnhancedKnowledgeBase)
    (q : String) (domains capabilities : List String) (now : String)
    (h : ∀ tok ∈ tokenize kb.stopWords q, tok ∉ kb.vocab) :
    (∀ t ∈ kb.vocab, kb.queryVector q t = 0) ∧
    (∀ i, kb.score q i = 0) ∧
    (kb.query q domains capabilities now).items = [] := by
  refine ⟨?_, fun i => score_eq_zero_of_disjoint kb q h i,
    query_items_empty_of_disjoint kb q domains capabilities now h⟩
  intro t ht
  exact transform_eq_zero_of_disjoint kb.stopWords kb.corpusTexts q h t ht

/-- C7 witness: a concrete fitted engine with stop-word list `["the"]` and
the query "the zz", whose tokens are a stop word and an out-of-vocabulary
term: the score of row 0 is zero and the result list is empty. -/
theorem zero_overlap_query_returns_empty_witness :
    kbStop.score "the zz" 0 = 0 ∧
    (kbStop.query "the zz" [] [] "t").items = [] :=
  ⟨(zero_overlap_query_returns_empty kbStop "the zz" [] [] "t" (by decide)).2.1 0,
   (zero_overlap_query_returns_empty kbStop "the zz" [] [] "t" (by decide)).2.2⟩

/-- C8: no query call mutates any engine state: the engine after the call
equals the engine before it (in particular the stored corpus and the
derived vocabulary model are unchanged), and every returned item is a
score-annotated copy of a stored corpus item (the loop writes only to the
fresh `item_copy`). -/
theorem query_leaves_engine_state_unchanged (kb : EnhancedKnowledgeBase)
    (q : String) (domains capabilities : List String) (now : String) :
    (kb.queryState q domains capabilities now).2 = kb ∧
    (kb.queryState q domains capabilities now).2.corpus = kb.corpus ∧
    (kb.queryState q domains capabilities now).2.vocab = kb.vocab ∧
    ∀ r ∈ (kb.queryState q domains capabilities now).1.items, r.item ∈ kb.corpus := by
  refine ⟨rfl, rfl, rfl, ?_⟩
  intro r hr
  have hr' : r ∈ (kb.query q domains capabilities now).items := hr
  rw [EnhancedKnowledgeBase.query_items_eq] at hr'
  obtain ⟨i, hi, rfl⟩ := List.mem_map.mp hr'
  have hlt := kb.mem_selectedIndices_lt q domains capabilities i hi
  show kb.corpus.getD i default ∈ kb.corpus
  rw [List.getD_eq_getElem kb.corpus default hlt]
  exact List.getElem_mem hlt

/-- C8 witness: on a concrete fitted engine, the engine state after a
query equals the state before it, and the returned item is a copy of a
stored corpus item. -/
theorem query_leaves_engine_state_unchanged_witness :
    (kbOne.queryState "aa" [] [] "t").2 = kbOne ∧
    (kbOne.annotate "aa" 0).item ∈ kbOne.corpus :=
  ⟨(query_leaves_engine_state_unchanged kbOne "aa" [] [] "t").1,
   (query_leaves_engine_state_unchanged kbOne "aa" [] [] "t").2.2.2
     (kbOne.annotate "aa" 0)
     (by show kbOne.annotate "aa" 0 ∈ (kbOne.query "aa" [] [] "t").items
         rw [kbOne_items]
         exact List.mem_singleton.mpr rfl)⟩

/-- C9: fitting the vectorizer fails with `DegenerateCorpusError` exactly
when the corpus tokenization yields an empty vocabulary, that is when
every corpus item's content tokenizes to nothing (for example, every term
filtered as a stop word); in that case the engine is not constructed, and
for every corpus yielding a non-empty vocabulary construction succeeds. -/
theorem init_fails_iff_empty_vocabulary (stopWords : List String)
    (domains : List Domain) (corpus : List KnowledgeItem) :
    EnhancedKnowledgeBase.init stopWords domains corpus =
        Except.error DegenerateCorpusError.emptyVocabulary ↔
      ∀ it ∈ corpus, tokenize stopWords it.content = [] := by
  unfold EnhancedKnowledgeBase.init
  have hiff : vocabulary stopWords (corpus.map (·.content)) = [] ↔
      ∀ it ∈ corpus, tokenize stopWords it.content = [] := by
    rw [vocabulary_eq_nil_iff]
    constructor
    · intro h it hit
      exact h _ (List.mem_map_of_mem _ hit)
    · intro h text htext
      obtain ⟨it, hit, rfl⟩ := List.mem_map.mp htext
      exact h it hit
  by_cases h : vocabulary stopWords (corpus.map (·.content)) = []
  · rw [if_pos h]
    constructor
    · intro _
      exact hiff.mp h
    · intro _
      rfl
  · rw [if_neg h]
    constructor
    · intro hcontr
      exact Except.noConfusion hcontr
    · intro hall
      exact absurd (hiff.mpr hall) h

/-- C9 witness: a corpus whose only content word is itself a stop word
fails to construct, while the same corpus under an empty stop-word list
does not fail. -/
theorem init_fails_iff_empty_vocabulary_witness :
    (EnhancedKnowledgeBase.init ["aa"] [] [sampleItem "s0" "business" "aa"] =
      Except.error DegenerateCorpusError.emptyVocabulary) ∧
    ¬ (EnhancedKnowledgeBase.init [] [] [sampleItem "s0" "business" "aa"] =
      Except.error DegenerateCorpusError.emptyVocabulary) :=
  ⟨(init_fails_iff_empty_vocabulary ["aa"] [] [sampleItem "s0" "business" "aa"]).mpr
      (by decide),
   fun h => by
     have h2 := (init_fails_iff_empty_vocabulary [] []
       [sampleItem "s0" "business" "aa"]).mp h
     have h3 := h2 (sampleItem "s0" "business" "aa") (List.mem_singleton.mpr rfl)
     exact absurd h3 (by decide)⟩

/-- C10: no corpus item appears more than once in a returned `items` list:
the accepted corpus positions are pairwise distinct and the returned items
are exactly the annotated items at those positions. -/
theorem query_items_from_distinct_corpus_positions (kb : EnhancedKnowledgeBase)
    (q : String) (domains capabilities : List String) (now : String) :
    (kb.selectedIndices q domains capabilities).Nodup ∧
    (kb.query q domains capabilities now).items =
      (kb.selectedIndices q domains capabilities).map (kb.annotate q) :=
  ⟨kb.selectedIndices_nodup q domains capabilities, rfl⟩

end ExecAI
